import Mathlib

/-!
Verification of the `pipmap` Mapper component (src/pipmap/mapper.py) against its
natural-language specification.

The development is a shallow embedding of the Python source: each method of the
`Mapper` class becomes a Lean function over an explicit environment `Env`
(filesystem existence / file contents / subprocess results) and explicit state
(`MapperState`, holding the mutable `_pkgs_map`).  Fallible Python code (code
that can raise) is embedded as `Except String`.  Python string/dict primitives
used by the source (`str.strip`, `str.split(sep, 1)`, `str.find`,
`str.endswith`, `str.replace`, dict insertion/lookup with insertion order and
last-write-wins) are modelled explicitly below.
-/

deriving instance DecidableEq for Except

/-! ## Python string primitives -/

/-- The whitespace characters removed by Python `str.strip()`. -/
def pyWs (c : Char) : Bool :=
  c = ' ' || c = '\t' || c = '\n' || c = '\r' || c = '\x0b' || c = '\x0c'

/-- Python `str.strip()` on a character list: drop whitespace from both ends. -/
def stripList (l : List Char) : List Char :=
  ((l.dropWhile pyWs).reverse.dropWhile pyWs).reverse

/-- Python `str.strip()`. -/
def pyStrip (s : String) : String :=
  ⟨stripList s.data⟩

/-- Split a character list at the first occurrence of the pattern `d`:
`some (before, after)` when `d` occurs, `none` otherwise.  This is the core
of Python `str.split(d, 1)` and `str.find(d) > -1` for nonempty `d`. -/
def splitOnceCore (d : List Char) : List Char → Option (List Char × List Char)
  | [] => none
  | c :: cs =>
    if d <+: (c :: cs) then some ([], (c :: cs).drop d.length)
    else (splitOnceCore d cs).map (fun p => (c :: p.1, p.2))

/-- Python `s.find(d) > -1` (membership of `d` in `s`; an empty pattern is
always found, at index 0). -/
def pyFind (s d : String) : Bool :=
  d.data.isEmpty || (splitOnceCore d.data s.data).isSome

/-- Python `s.split(d, 1)` as the list of parts; `.error` models the
`ValueError: empty separator` raised for an empty separator. -/
def pySplitLine (s d : String) : Except String (List String) :=
  if d.data.isEmpty then .error "ValueError: empty separator"
  else
    match splitOnceCore d.data s.data with
    | some p => .ok [⟨p.1⟩, ⟨p.2⟩]
    | none => .ok [s]

/-- Python `str.endswith(suffix)`. -/
def pyEndsWith (s suffix : String) : Bool :=
  decide (suffix.data <:+ s.data)

/-- Python `name.replace("-", "_")`. -/
def underscoreName (s : String) : String :=
  ⟨s.data.map (fun c => if c = '-' then '_' else c)⟩

/-- `os.path.join` for a root and a relative component. -/
def joinPath (a b : String) : String :=
  a ++ "/" ++ b

/-! ## Python dict primitives (insertion order, last write wins) -/

/-- Python dict lookup on an association list. -/
def dictGet {α : Type} : List (String × α) → String → Option α
  | [], _ => none
  | p :: rest, k => if p.1 = k then some p.2 else dictGet rest k

/-- Python dict insertion: an existing key keeps its position and its value is
overwritten; a new key is appended at the end. -/
def dictInsert {α : Type} (m : List (String × α)) (k : String) (v : α) : List (String × α) :=
  if (dictGet m k).isSome then m.map (fun p => if p.1 = k then (k, v) else p)
  else m ++ [(k, v)]

/-! ## The data model and the environment -/

/-- One value of `self._pkgs_map` (a `PackageRecord` of the spec): the fields
stored by `Mapper._add_pkg_data`.  `metadata` is a genuine mapping there (the
`None` case raises before any record is stored); `top_level` may be `None`. -/
structure PackageRecord where
  metadata : List (String × String)
  reqName : String
  reqVersion : String
  raw : String
  top_level : Option (List String)
deriving DecidableEq

/-- The accumulated `self._pkgs_map` (the spec's PackageMap). -/
abbrev PkgMap : Type := List (String × PackageRecord)

/-- One element of the list built by `Mapper._format` (the spec's
SummaryRecord).  `modules` is exactly the stored `top_level` value, hence an
`Option`: Python renders `None` as JSON `null`. -/
structure SummaryRecord where
  name : String
  version : String
  modules : Option (List String)
  «alias» : String
deriving DecidableEq

/-- The value returned by `Mapper._format`: a JSON serialization of the summary
records when `fmt == "json"`, the native list otherwise.  Serialization itself
is outside the specified core, so the JSON branch keeps the records. -/
inductive MapOutput where
  | jsonText (records : List SummaryRecord)
  | native (records : List SummaryRecord)
deriving DecidableEq

/-- The records carried by either output shape. -/
def MapOutput.records : MapOutput → List SummaryRecord
  | .jsonText r => r
  | .native r => r

/-- The external world consumed by `Mapper`: `os.path.exists`, file contents as
`readlines()` lists, and `subprocess.run` producing (stdout, stderr). -/
structure Env where
  pathExists : String → Bool
  lines : String → List String
  runCmd : List String → String × String

/-- The `Mapper` instance state: constructor configuration plus the mutable
`self._pkgs_map`. -/
structure MapperState where
  regs : String
  fmt : String
  verbose : String
  site : String
  pkgs_map : PkgMap
deriving DecidableEq

/-- `Mapper.__init__`: stores the configuration, sets `_verbose = 'v'` and
`_pkgs_map = {}` (logging setup and site-packages discovery are external). -/
def Mapper_init (reqs fmt site : String) : MapperState :=
  { regs := reqs, fmt := fmt, verbose := "v", site := site, pkgs_map := [] }

/-! ## The Mapper methods -/

/-- `Mapper._cmd`: run a command, return decoded (stdout, stderr). -/
def mapper_cmd (env : Env) (cmd : List String) : String × String :=
  env.runCmd cmd

/-- The argument `data` of `Mapper._split`: either a line iterable or a value
with no `__iter__` attribute (kept with its printed representation). -/
inductive PyData where
  | strList (lines : List String)
  | notIterable (txt : String)

/-- The comprehension `[r.strip().split(delimiter, 1) for r in data if
r.find(delimiter) > -1]` from `Mapper._split`. -/
def pySplitReqs (data : List String) (d : String) : Except String (List (List String)) :=
  match data with
  | [] => .ok []
  | r :: rest =>
    if pyFind r d then
      match pySplitLine (pyStrip r) d, pySplitReqs rest d with
      | .ok parts, .ok l => .ok (parts :: l)
      | .error e, _ => .error e
      | .ok _, .error e => .error e
    else pySplitReqs rest d

/-- The dict comprehension `{key.strip(): value.strip() for (key, value) in
reqs}` from `Mapper._split`; unpacking a part list that is not a pair raises. -/
def pyDictOfPairs (reqs : List (List String)) (acc : List (String × String)) :
    Except String (List (String × String)) :=
  match reqs with
  | [] => .ok acc
  | parts :: rest =>
    match parts with
    | [k, v] => pyDictOfPairs rest (dictInsert acc (pyStrip k) (pyStrip v))
    | _ => .error "ValueError: not enough values to unpack"

/-- The body of `Mapper._split` after the iterable check. -/
def pySplit (data : List String) (d : String) : Except String (List (String × String)) :=
  match pySplitReqs data d with
  | .ok reqs => pyDictOfPairs reqs []
  | .error e => .error e

/-- `Mapper._split`: raises on a non-iterable argument, otherwise builds the
stripped key/value mapping. -/
def Mapper_split (data : PyData) (d : String) : Except String (List (String × String)) :=
  match data with
  | .notIterable t => .error ("Data are not iterable instance: " ++ t)
  | .strList lines => pySplit lines d

/-- One candidate directory `{name}-{version}.{suffix}-info` under the
site-packages root, from the template in `Mapper._get_pkg_path`. -/
def infoCandidate (site name version suf : String) : String :=
  joinPath site (name ++ "-" ++ version ++ "." ++ suf ++ "-info")

/-- `Mapper._get_pkg_path`: for each suffix in `["egg", "dist"]` check the
plain-name candidate then the hyphens-to-underscores candidate, returning the
first existing path; `none` (after an error log) when no candidate exists. -/
def get_pkg_path (ex : String → Bool) (site name version : String) : Option String :=
  ["egg", "dist"].findSome? (fun suf =>
    let p1 := infoCandidate site name version suf
    let p2 := infoCandidate site (underscoreName name) version suf
    if ex p1 then some p1 else if ex p2 then some p2 else none)

/-- `Mapper._read`: raises when the path does not exist, otherwise returns the
file's lines. -/
def mapper_read (env : Env) (path : String) : Except String (List String) :=
  if env.pathExists path = false then .error ("File not found in the path: " ++ path)
  else .ok (env.lines path)

/-- `Mapper._install`: `pip install name==version`, returning (stdout, stderr);
a nonempty stderr is only logged here. -/
def mapper_install (env : Env) (name version : String) : String × String :=
  mapper_cmd env ["pip", "install", name ++ "==" ++ version]

/-- The metadata filename choice made inside `Mapper._get_pkg_meta`:
`PKG-INFO` for a location ending in `egg-info`, else `METADATA`. -/
def metaFileName (location : String) : String :=
  if pyEndsWith location "egg-info" then "PKG-INFO" else "METADATA"

/-- `Mapper._get_pkg_meta`: pick the metadata filename, return `None` (after a
warning log) when that file is missing, otherwise read it and split its lines
on `":"`. -/
def get_pkg_meta (env : Env) (location : String) :
    Except String (Option (List (String × String))) :=
  let mf := metaFileName location
  if env.pathExists (joinPath location mf) = false then .ok none
  else
    match mapper_read env (joinPath location mf) with
    | .error e => .error e
    | .ok fd =>
      match Mapper_split (.strList fd) ":" with
      | .error e => .error e
      | .ok md => .ok (some md)

/-- `Mapper._get_pkg_top_level`: return `None` (after a warning log) when
`top_level.txt` is missing, otherwise the stripped lines of the file. -/
def get_pkg_top_level (env : Env) (location : String) :
    Except String (Option (List String)) :=
  if env.pathExists (joinPath location "top_level.txt") = false then .ok none
  else
    match mapper_read env (joinPath location "top_level.txt") with
    | .error e => .error e
    | .ok fd => .ok (some (fd.map pyStrip))

/-- Python truthiness of `_pkg_meta.get("Name") or name`: the declared name
when present and nonempty, else the requirement name. -/
def pyOrName (o : Option String) (dflt : String) : String :=
  match o with
  | some s => if s = "" then dflt else s
  | none => dflt

/-- `Mapper._add_pkg_data`: resolve the location (return unchanged when not
found), read the metadata — `_pkg_meta.get("Name")` on the `None` result of a
missing metadata file raises `AttributeError` — read the top-level modules,
and store the record in `_pkgs_map` under the canonical name. -/
def add_pkg_data (env : Env) (site : String) (m : PkgMap) (name version : String) :
    Except String PkgMap :=
  match get_pkg_path env.pathExists site name version with
  | none => .ok m
  | some loc =>
    match get_pkg_meta env loc with
    | .error e => .error e
    | .ok none => .error "AttributeError: NoneType object has no attribute get"
    | .ok (some meta) =>
      let pkgName := pyOrName (dictGet meta "Name") name
      match get_pkg_top_level env loc with
      | .error e => .error e
      | .ok modules =>
        .ok (dictInsert m pkgName
          { metadata := meta, reqName := name, reqVersion := version,
            raw := name ++ "==" ++ version, top_level := modules })

/-- The summary built for one `_pkgs_map` entry inside `Mapper._format`:
`data.get("metadata", {}).get("Version", "UNKNOWN")`, the stored `top_level`
value as-is (the key is always present, so the `[]` default of
`data.get("top_level", [])` is never used), and the alias rule. -/
def summarize (pkg : String) (data : PackageRecord) : SummaryRecord :=
  { name := pkg
  , version := (dictGet data.metadata "Version").getD "UNKNOWN"
  , modules := data.top_level
  , «alias» := if data.reqName ≠ pkg then data.reqName else "" }

/-- `Mapper._format`: under `_verbose == 'v'` summarize every `_pkgs_map` entry
in insertion order (otherwise the list stays empty), then pick the output
shape from `fmt`. -/
def Mapper_format (fmt verbose : String) (m : PkgMap) : MapOutput :=
  let pkgs_info := if verbose = "v" then m.map (fun p => summarize p.1 p.2) else []
  if fmt = "json" then .jsonText pkgs_info else .native pkgs_info

/-- The body of one iteration of the loop in `Mapper.map`: install, skip the
requirement when stderr is nonempty, otherwise enrich. -/
def processReq (env : Env) (site : String) (m : PkgMap) (p : String × String) :
    Except String PkgMap :=
  let r := mapper_install env p.1 p.2
  if r.2 ≠ "" then .ok m
  else add_pkg_data env site m p.1 p.2

/-- The loop of `Mapper.map` over the parsed requirement pairs. -/
def processAll (env : Env) (site : String) :
    List (String × String) → PkgMap → Except String PkgMap
  | [], m => .ok m
  | p :: rest, m =>
    match processReq env site m p with
    | .ok m' => processAll env site rest m'
    | .error e => .error e

/-- `Mapper.map`: upgrade pip (result ignored), read and split the manifest,
process every requirement against the current `_pkgs_map`, format.  The
resulting state keeps the accumulated `_pkgs_map` (the source never clears
it). -/
def Mapper_map (env : Env) (st : MapperState) : Except String (MapperState × MapOutput) :=
  let _ := mapper_cmd env ["pip", "install", "--upgrade", "pip"]
  match mapper_read env st.regs with
  | .error e => .error e
  | .ok reqs_lines =>
    match Mapper_split (.strList reqs_lines) "==" with
    | .error e => .error e
    | .ok reqs_dict =>
      match processAll env st.site reqs_dict st.pkgs_map with
      | .error e => .error e
      | .ok m' => .ok ({ st with pkgs_map := m' }, Mapper_format st.fmt st.verbose m')

/-! ## Claim-words definitions

`spec_pkg_path_claimed` follows the probing order the specification describes,
to be compared with `get_pkg_path` (which follows the source); `claimSplit`
follows the specification's description of the splitting routine, to be
compared with `pySplit`. -/

/-- Resolver following the order claimed by the spec: `{name}` with both
suffixes first, then the underscored name with both suffixes; first existing
path wins. -/
def spec_pkg_path_claimed (ex : String → Bool) (site name version : String) : Option String :=
  [infoCandidate site name version "egg",
   infoCandidate site name version "dist",
   infoCandidate site (underscoreName name) version "egg",
   infoCandidate site (underscoreName name) version "dist"].find? ex

/-- The splitting routine as the spec words it, per line: a line containing
the delimiter is split once on the first occurrence and both parts are
stripped; other lines are dropped. -/
def claimSplitPairs (data : List String) (d : String) : List (String × String) :=
  data.filterMap (fun r =>
    (splitOnceCore d.data r.data).map (fun p => (pyStrip ⟨p.1⟩, pyStrip ⟨p.2⟩)))

/-- The mapping the spec describes: the pairs of `claimSplitPairs`, collapsed
with last-write-wins map semantics. -/
def claimSplit (data : List String) (d : String) : List (String × String) :=
  (claimSplitPairs data d).foldl (fun m p => dictInsert m p.1 p.2) []

/-! ## Concrete environments used as inputs -/

/-- A world with a manifest requiring `beta==3.1`, a resolvable
`beta-3.1.egg-info` directory whose `PKG-INFO` declares Name `Beta` and
Version `3.1`, and no `top_level.txt`; every install succeeds. -/
def envBeta : Env :=
  { pathExists := fun p =>
      p == "requirements.txt" || p == "sp/beta-3.1.egg-info" ||
      p == "sp/beta-3.1.egg-info/PKG-INFO"
  , lines := fun p =>
      if p == "requirements.txt" then ["beta==3.1\n"]
      else if p == "sp/beta-3.1.egg-info/PKG-INFO" then ["Name: Beta\n", "Version: 3.1\n"]
      else []
  , runCmd := fun _ => ("", "") }

/-- A world with a manifest requiring `a==1.0` whose metadata directory
`a-1.0.egg-info` resolves but contains no `PKG-INFO`; every install
succeeds. -/
def envMetaMissing : Env :=
  { pathExists := fun p => p == "requirements.txt" || p == "sp/a-1.0.egg-info"
  , lines := fun p => if p == "requirements.txt" then ["a==1.0\n"] else []
  , runCmd := fun _ => ("", "") }

/-- A filesystem where, for name `a-b` and version `1`, only the plain-name
dist-info candidate and the underscored egg-info candidate exist. -/
def crossFs : String → Bool := fun p =>
  p == "sp/a-b-1.dist-info" || p == "sp/a_b-1.egg-info"

/-! ## C1 -/

/-- C1: in a world where the requirement's metadata directory resolves but the
metadata file is missing, `_get_pkg_meta` does return the absent marker (the
logged-warning path), but `map()` does not continue: `_add_pkg_data` calls
`.get` on that `None` and the whole run aborts with an `AttributeError`,
contradicting the claim that the missing metadata file never aborts the
`map()` run. -/
theorem C1_missing_metadata_aborts_map :
    get_pkg_meta envMetaMissing "sp/a-1.0.egg-info" = .ok none
    ∧ Mapper_map envMetaMissing (Mapper_init "requirements.txt" "json" "sp")
        = .error "AttributeError: NoneType object has no attribute get" := by
  decide

/-! ## C2 -/

/-- C2: running the pipeline on the spec's `beta` example (metadata Name
`Beta`, Version `3.1`, no top_level file) stores the record under `Beta` and
formats it with `modules = none` (JSON `null`), not the empty sequence the
claim states: the always-present `top_level` key makes the `[]` default of
`data.get("top_level", [])` dead code. -/
theorem C2_beta_modules_none :
    Mapper_map envBeta (Mapper_init "requirements.txt" "json" "sp")
      = .ok ({ regs := "requirements.txt", fmt := "json", verbose := "v", site := "sp",
               pkgs_map := [("Beta",
                 { metadata := [("Name", "Beta"), ("Version", "3.1")],
                   reqName := "beta", reqVersion := "3.1",
                   raw := "beta==3.1", top_level := none })] },
             .jsonText [{ name := "Beta", version := "3.1", modules := none, «alias» := "beta" }])
    ∧ (none : Option (List String)) ≠ some [] := by
  exact ⟨by decide, by decide⟩

/-! ## C3 -/

/-- C3 counterexample: with only `sp/a-b-1.dist-info` and `sp/a_b-1.egg-info`
present, the source resolver returns the underscored egg-info path while the
probing order claimed by the spec would return the plain-name dist-info path,
so the claimed order is not the code's order. -/
theorem C3_counterexample_probe_order :
    get_pkg_path crossFs "sp" "a-b" "1" = some "sp/a_b-1.egg-info"
    ∧ spec_pkg_path_claimed crossFs "sp" "a-b" "1" = some "sp/a-b-1.dist-info"
    ∧ ("sp/a_b-1.egg-info" : String) ≠ "sp/a-b-1.dist-info" := by
  exact ⟨by decide, by decide, by decide⟩

/-- C3 amended: the resolver probes exactly four candidates, in the order
egg-info with the plain name, egg-info with the underscored name, dist-info
with the plain name, dist-info with the underscored name; it returns the first
existing one and `none` (the logged not-found marker, without raising) when
none of the four exists. -/
theorem C3_amended_probe_order (ex : String → Bool) (site name version : String) :
    get_pkg_path ex site name version =
      [infoCandidate site name version "egg",
       infoCandidate site (underscoreName name) version "egg",
       infoCandidate site name version "dist",
       infoCandidate site (underscoreName name) version "dist"].find? ex := by
  unfold get_pkg_path
  simp only [List.findSome?_cons, List.find?]
  cases h1 : ex (infoCandidate site name version "egg") <;>
    cases h2 : ex (infoCandidate site (underscoreName name) version "egg") <;>
      cases h3 : ex (infoCandidate site name version "dist") <;>
        cases h4 : ex (infoCandidate site (underscoreName name) version "dist") <;>
          simp [h1, h2, h3, h4, List.findSome?]

/-! ## C7 -/

/-- C7: inside `_get_pkg_meta` the file to read is `PKG-INFO` exactly when the
resolved location ends with `egg-info`, and `METADATA` otherwise — in
particular for locations ending with `dist-info`. -/
theorem C7_meta_filename (loc : String) :
    (metaFileName loc = "PKG-INFO" ↔ pyEndsWith loc "egg-info" = true)
    ∧ (pyEndsWith loc "egg-info" = false → metaFileName loc = "METADATA")
    ∧ (pyEndsWith loc "dist-info" = true → metaFileName loc = "METADATA") := by
  unfold metaFileName
  cases h : pyEndsWith loc "egg-info" with
  | false =>
    refine ⟨by simp, fun _ => by simp, fun _ => by simp⟩
  | true =>
    refine ⟨by simp, fun hc => by simp at hc, fun hd => ?_⟩
    exfalso
    have hegg : ("egg-info" : String).data <:+ loc.data := of_decide_eq_true h
    have hdist : ("dist-info" : String).data <:+ loc.data := of_decide_eq_true hd
    have hist : ("ist-info" : String).data <:+ ("dist-info" : String).data := by decide
    have h2 : ("ist-info" : String).data <:+ loc.data := hist.trans hdist
    rcases List.suffix_or_suffix_of_suffix hegg h2 with hc | hc
    · exact absurd (hc.eq_of_length (by decide)) (by decide)
    · exact absurd (hc.eq_of_length (by decide)).symm (by decide)

/-- C7 witness: the file choice evaluated at a dist-info and an egg-info
location. -/
theorem C7_witness :
    metaFileName "sp/x-1.dist-info" = "METADATA"
    ∧ metaFileName "sp/x-1.egg-info" = "PKG-INFO" :=
  ⟨(C7_meta_filename "sp/x-1.dist-info").2.2 (by decide),
   (C7_meta_filename "sp/x-1.egg-info").1.mpr (by decide)⟩

/-! ## C10 -/

/-- C10: when `top_level.txt` exists at the resolved location, the top-level
reader returns exactly the file's lines in order, each stripped — blank lines
are kept as empty strings — and the formatter copies the stored `top_level`
sequence into the `modules` field unchanged. -/
theorem C10_top_level_stripped_lines (env : Env) (loc : String)
    (hex : env.pathExists (joinPath loc "top_level.txt") = true) :
    get_pkg_top_level env loc
      = .ok (some ((env.lines (joinPath loc "top_level.txt")).map pyStrip))
    ∧ ∀ pkg rec, (summarize pkg rec).modules = rec.top_level := by
  constructor
  · simp [get_pkg_top_level, mapper_read, hex]
  · intro pkg rec
    rfl

/-- A world holding only a `top_level.txt` with a module line, a blank line and
a padded module line. -/
def envTop : Env :=
  { pathExists := fun p => p == "sp/x-1.egg-info/top_level.txt"
  , lines := fun p =>
      if p == "sp/x-1.egg-info/top_level.txt" then ["alpha_mod\n", "\n", "  beta_mod \n"]
      else []
  , runCmd := fun _ => ("", "") }

/-- C10 witness: the blank line survives as an empty-string entry, in file
order. -/
theorem C10_witness :
    get_pkg_top_level envTop "sp/x-1.egg-info" = .ok (some ["alpha_mod", "", "beta_mod"]) :=
  ((C10_top_level_stripped_lines envTop "sp/x-1.egg-info" (by decide)).1).trans (by decide)

/-! ## C6 -/

/-- C6: the splitting routine fails with the input-type error on a non-iterable
argument (producing nothing), and a missing manifest aborts the whole `map()`
run with the propagated read error; but the trailing part of the claim — every
other failure being local to one requirement — is contradicted by the code: a
requirement whose metadata directory resolves without a metadata file aborts
the whole run. -/
theorem C6_input_errors_propagation :
    Mapper_split (PyData.notIterable "42") "==" = .error "Data are not iterable instance: 42"
    ∧ (∀ env st, env.pathExists st.regs = false →
        Mapper_map env st = .error ("File not found in the path: " ++ st.regs))
    ∧ Mapper_map envMetaMissing (Mapper_init "requirements.txt" "json" "sp")
        = .error "AttributeError: NoneType object has no attribute get" := by
  refine ⟨by decide, ?_, by decide⟩
  intro env st h
  unfold Mapper_map mapper_read mapper_cmd
  rw [h]
  simp

/-- A world where no path exists at all. -/
def envNoFs : Env :=
  { pathExists := fun _ => false, lines := fun _ => [], runCmd := fun _ => ("", "") }

/-- C6 witness: a missing manifest path propagates the read error out of
`map()`. -/
theorem C6_witness :
    Mapper_map envNoFs (Mapper_init "requirements.txt" "json" "sp")
      = .error "File not found in the path: requirements.txt" :=
  (C6_input_errors_propagation.2.1 envNoFs (Mapper_init "requirements.txt" "json" "sp")
    (by decide)).trans (by decide)

/-! ## Dictionary lemmas -/

lemma dictGet_overwrite {α : Type} (m : List (String × α)) (k : String) (v : α)
    (h : (dictGet m k).isSome = true) :
    dictGet (m.map (fun p => if p.1 = k then (k, v) else p)) k = some v := by
  induction m with
  | nil => simp [dictGet] at h
  | cons p rest ih =>
    by_cases hp : p.1 = k
    · simp [dictGet, hp]
    · have h' : (dictGet rest k).isSome = true := by simpa [dictGet, hp] using h
      simp [dictGet, hp, ih h']

lemma dictGet_append_of_none {α : Type} (m m' : List (String × α)) (k : String)
    (h : dictGet m k = none) : dictGet (m ++ m') k = dictGet m' k := by
  induction m with
  | nil => simp [dictGet]
  | cons p rest ih =>
    by_cases hp : p.1 = k
    · simp [dictGet, hp] at h
    · have h' : dictGet rest k = none := by simpa [dictGet, hp] using h
      simp [dictGet, hp, ih h']

lemma dictGet_dictInsert_self {α : Type} (m : List (String × α)) (k : String) (v : α) :
    dictGet (dictInsert m k v) k = some v := by
  unfold dictInsert
  by_cases h : (dictGet m k).isSome = true
  · rw [if_pos h]
    exact dictGet_overwrite m k v h
  · rw [if_neg h]
    have h0 : dictGet m k = none := Option.not_isSome_iff_eq_none.mp h
    rw [dictGet_append_of_none _ _ _ h0]
    simp [dictGet]

lemma dictGet_overwriteMap_ne {α : Type} (m : List (String × α)) (a k : String) (b : α)
    (hk : k ≠ a) :
    dictGet (m.map (fun p => if p.1 = a then (a, b) else p)) k = dictGet m k := by
  induction m with
  | nil => rfl
  | cons p rest ih =>
    by_cases hp : p.1 = a
    · simp [dictGet, hp, Ne.symm hk, ih]
    · by_cases hq : p.1 = k <;> simp [dictGet, hp, hq, hk, ih]

lemma dictGet_append_single_ne {α : Type} (m : List (String × α)) (a k : String) (b : α)
    (hk : k ≠ a) : dictGet (m ++ [(a, b)]) k = dictGet m k := by
  induction m with
  | nil => simp [dictGet, Ne.symm hk]
  | cons p rest ih => by_cases hp : p.1 = k <;> simp [dictGet, hp, ih]

lemma dictGet_dictInsert_ne {α : Type} (m : List (String × α)) (a k : String) (b : α)
    (hk : k ≠ a) : dictGet (dictInsert m a b) k = dictGet m k := by
  unfold dictInsert
  by_cases h : (dictGet m a).isSome = true
  · rw [if_pos h]
    exact dictGet_overwriteMap_ne m a k b hk
  · rw [if_neg h]
    exact dictGet_append_single_ne m a k b hk

lemma dictGet_dictInsert_isSome {α : Type} (m : List (String × α)) (a k : String) (b : α)
    (hk : (dictGet m k).isSome = true) :
    (dictGet (dictInsert m a b) k).isSome = true := by
  by_cases h : k = a
  · subst h
    rw [dictGet_dictInsert_self]
    rfl
  · rw [dictGet_dictInsert_ne m a k b h]
    exact hk

lemma dictInsert_mem {α : Type} {m : List (String × α)} {k : String} {v : α} {x : String × α}
    (h : x ∈ dictInsert m k v) : x ∈ m ∨ x = (k, v) := by
  unfold dictInsert at h
  by_cases hs : (dictGet m k).isSome = true
  · rw [if_pos hs] at h
    rcases List.mem_map.mp h with ⟨p, hp, he⟩
    by_cases hq : p.1 = k
    · right
      rw [← he]
      simp [hq]
    · left
      rw [← he]
      simpa [hq] using hp
  · rw [if_neg hs] at h
    rcases List.mem_append.mp h with h1 | h1
    · exact Or.inl h1
    · exact Or.inr (List.eq_of_mem_singleton h1)

/-! ## Step lemmas about the map() pipeline -/

lemma add_pkg_data_path_none {env : Env} {site : String} (m : PkgMap) {n v : String}
    (hp : get_pkg_path env.pathExists site n v = none) :
    add_pkg_data env site m n v = .ok m := by
  unfold add_pkg_data
  rw [hp]

lemma add_pkg_data_meta_error {env : Env} {site : String} (m : PkgMap) {n v loc e : String}
    (hp : get_pkg_path env.pathExists site n v = some loc)
    (hm : get_pkg_meta env loc = .error e) :
    add_pkg_data env site m n v = .error e := by
  unfold add_pkg_data
  rw [hp]
  simp [hm]

lemma add_pkg_data_meta_none {env : Env} {site : String} (m : PkgMap) {n v loc : String}
    (hp : get_pkg_path env.pathExists site n v = some loc)
    (hm : get_pkg_meta env loc = .ok none) :
    add_pkg_data env site m n v
      = .error "AttributeError: NoneType object has no attribute get" := by
  unfold add_pkg_data
  rw [hp]
  simp [hm]

lemma add_pkg_data_top_error {env : Env} {site : String} (m : PkgMap) {n v loc e : String}
    {meta : List (String × String)}
    (hp : get_pkg_path env.pathExists site n v = some loc)
    (hm : get_pkg_meta env loc = .ok (some meta))
    (ht : get_pkg_top_level env loc = .error e) :
    add_pkg_data env site m n v = .error e := by
  unfold add_pkg_data
  rw [hp]
  simp [hm, ht]

lemma add_pkg_data_stores {env : Env} {site : String} (m : PkgMap) {n v loc : String}
    {meta : List (String × String)} {tl : Option (List String)}
    (hp : get_pkg_path env.pathExists site n v = some loc)
    (hm : get_pkg_meta env loc = .ok (some meta))
    (ht : get_pkg_top_level env loc = .ok tl) :
    add_pkg_data env site m n v =
      .ok (dictInsert m (pyOrName (dictGet meta "Name") n)
        { metadata := meta, reqName := n, reqVersion := v,
          raw := n ++ "==" ++ v, top_level := tl }) := by
  unfold add_pkg_data
  rw [hp]
  simp [hm, ht]

/-- Every successful enrichment either leaves the map unchanged or inserts the
record built from the requirement. -/
lemma add_pkg_data_ok_cases {env : Env} {site : String} {m : PkgMap} {n v : String}
    {m' : PkgMap} (h : add_pkg_data env site m n v = .ok m') :
    m' = m ∨ ∃ meta tl, m' = dictInsert m (pyOrName (dictGet meta "Name") n)
      { metadata := meta, reqName := n, reqVersion := v,
        raw := n ++ "==" ++ v, top_level := tl } := by
  cases hp : get_pkg_path env.pathExists site n v with
  | none =>
    rw [add_pkg_data_path_none m hp] at h
    injection h with h
    exact Or.inl h.symm
  | some loc =>
    cases hm : get_pkg_meta env loc with
    | error e =>
      rw [add_pkg_data_meta_error m hp hm] at h
      simp at h
    | ok om =>
      cases om with
      | none =>
        rw [add_pkg_data_meta_none m hp hm] at h
        simp at h
      | some meta =>
        cases ht : get_pkg_top_level env loc with
        | error e =>
          rw [add_pkg_data_top_error m hp hm ht] at h
          simp at h
        | ok tl =>
          rw [add_pkg_data_stores m hp hm ht] at h
          injection h with h
          exact Or.inr ⟨meta, tl, h.symm⟩

lemma add_pkg_data_ok_mem {env : Env} {site : String} {m : PkgMap} {n v : String}
    {m' : PkgMap} (h : add_pkg_data env site m n v = .ok m') :
    ∀ x ∈ m', x ∈ m ∨ x.2.reqName = n := by
  rcases add_pkg_data_ok_cases h with h1 | ⟨meta, tl, h1⟩
  · subst h1
    exact fun x hx => Or.inl hx
  · subst h1
    intro x hx
    rcases dictInsert_mem hx with h2 | h2
    · exact Or.inl h2
    · subst h2
      exact Or.inr rfl

lemma add_pkg_data_ok_keys {env : Env} {site : String} {m : PkgMap} {n v : String}
    {m' : PkgMap} (h : add_pkg_data env site m n v = .ok m') (k : String)
    (hk : (dictGet m k).isSome = true) : (dictGet m' k).isSome = true := by
  rcases add_pkg_data_ok_cases h with h1 | ⟨meta, tl, h1⟩
  · subst h1
    exact hk
  · subst h1
    exact dictGet_dictInsert_isSome _ _ _ _ hk

/-- A requirement whose install reports nonempty stderr is skipped: the map is
returned unchanged and no error is raised. -/
lemma processReq_err {env : Env} {site : String} (m : PkgMap) {p : String × String}
    (herr : (mapper_install env p.1 p.2).2 ≠ "") :
    processReq env site m p = .ok m := by
  unfold processReq
  simp [herr]

lemma processReq_ok_enrich {env : Env} {site : String} (m : PkgMap) {p : String × String}
    (hok : (mapper_install env p.1 p.2).2 = "") :
    processReq env site m p = add_pkg_data env site m p.1 p.2 := by
  unfold processReq
  simp [hok]

lemma processReq_ok_keys {env : Env} {site : String} {m : PkgMap} {p : String × String}
    {m' : PkgMap} (h : processReq env site m p = .ok m') (k : String)
    (hk : (dictGet m k).isSome = true) : (dictGet m' k).isSome = true := by
  by_cases herr : (mapper_install env p.1 p.2).2 = ""
  · rw [processReq_ok_enrich m herr] at h
    exact add_pkg_data_ok_keys h k hk
  · rw [processReq_err m herr] at h
    injection h with h
    subst h
    exact hk

lemma processAll_ok_keys {env : Env} {site : String} :
    ∀ {reqs : List (String × String)} {m m' : PkgMap},
      processAll env site reqs m = .ok m' →
      ∀ k, (dictGet m k).isSome = true → (dictGet m' k).isSome = true := by
  intro reqs
  induction reqs with
  | nil =>
    intro m m' h k hk
    unfold processAll at h
    injection h with h
    subst h
    exact hk
  | cons p rest ih =>
    intro m m' h k hk
    unfold processAll at h
    cases hpr : processReq env site m p with
    | error e =>
      rw [hpr] at h
      simp at h
    | ok m1 =>
      rw [hpr] at h
      simp only [] at h
      exact ih h k (processReq_ok_keys hpr k hk)

/-- `Mapper.map` unfolded past the discarded pip upgrade. -/
lemma Mapper_map_eq (env : Env) (st : MapperState) :
    Mapper_map env st =
      match mapper_read env st.regs with
      | .error e => .error e
      | .ok reqs_lines =>
        match Mapper_split (.strList reqs_lines) "==" with
        | .error e => .error e
        | .ok reqs_dict =>
          match processAll env st.site reqs_dict st.pkgs_map with
          | .error e => .error e
          | .ok m' => .ok ({ st with pkgs_map := m' }, Mapper_format st.fmt st.verbose m') :=
  rfl

lemma Mapper_map_read_error {env : Env} {st : MapperState} {e : String}
    (hr : mapper_read env st.regs = .error e) : Mapper_map env st = .error e := by
  rw [Mapper_map_eq, hr]

lemma Mapper_map_split_error {env : Env} {st : MapperState} {ls : List String} {e : String}
    (hr : mapper_read env st.regs = .ok ls)
    (hs : Mapper_split (.strList ls) "==" = .error e) : Mapper_map env st = .error e := by
  rw [Mapper_map_eq, hr]
  simp [hs]

lemma Mapper_map_process_error {env : Env} {st : MapperState} {ls : List String}
    {reqs : List (String × String)} {e : String}
    (hr : mapper_read env st.regs = .ok ls)
    (hs : Mapper_split (.strList ls) "==" = .ok reqs)
    (hp : processAll env st.site reqs st.pkgs_map = .error e) :
    Mapper_map env st = .error e := by
  rw [Mapper_map_eq, hr]
  simp [hs, hp]

lemma Mapper_map_ok {env : Env} {st : MapperState} {ls : List String}
    {reqs : List (String × String)} {m' : PkgMap}
    (hr : mapper_read env st.regs = .ok ls)
    (hs : Mapper_split (.strList ls) "==" = .ok reqs)
    (hp : processAll env st.site reqs st.pkgs_map = .ok m') :
    Mapper_map env st
      = .ok ({ st with pkgs_map := m' }, Mapper_format st.fmt st.verbose m') := by
  rw [Mapper_map_eq, hr]
  simp [hs, hp]

/-- Inversion of a successful `map()` run into its read, split and loop
results. -/
lemma Mapper_map_ok_inv {env : Env} {st st' : MapperState} {out : MapOutput}
    (h : Mapper_map env st = .ok (st', out)) :
    ∃ ls reqs m', mapper_read env st.regs = .ok ls
      ∧ Mapper_split (.strList ls) "==" = .ok reqs
      ∧ processAll env st.site reqs st.pkgs_map = .ok m'
      ∧ st' = { st with pkgs_map := m' }
      ∧ out = Mapper_format st.fmt st.verbose m' := by
  cases hr : mapper_read env st.regs with
  | error e =>
    rw [Mapper_map_read_error hr] at h
    simp at h
  | ok ls =>
    cases hs : Mapper_split (.strList ls) "==" with
    | error e =>
      rw [Mapper_map_split_error hr hs] at h
      simp at h
    | ok reqs =>
      cases hp : processAll env st.site reqs st.pkgs_map with
      | error e =>
        rw [Mapper_map_process_error hr hs hp] at h
        simp at h
      | ok m' =>
        rw [Mapper_map_ok hr hs hp] at h
        simp only [Except.ok.injEq, Prod.mk.injEq] at h
        exact ⟨ls, reqs, m', rfl, hs, hp, h.1.symm, h.2.symm⟩

/-! ## C8 -/

/-- C8: a successfully installed and located requirement is stored under the
canonical name `pyOrName (meta "Name") n` — the metadata's declared Name when
present (and nonempty, by Python truthiness), else the declared requirement
name — via `dictInsert`, which overwrites any prior record under that key
(last write wins); and the formatted alias equals the declared requirement
name exactly when it differs from the canonical name, else the empty
string. -/
theorem C8_canonical_key_overwrite_alias (env : Env) (site : String) (m : PkgMap)
    (n v loc : String) (meta : List (String × String)) (tl : Option (List String))
    (hp : get_pkg_path env.pathExists site n v = some loc)
    (hm : get_pkg_meta env loc = .ok (some meta))
    (ht : get_pkg_top_level env loc = .ok tl) :
    add_pkg_data env site m n v =
      .ok (dictInsert m (pyOrName (dictGet meta "Name") n)
        { metadata := meta, reqName := n, reqVersion := v,
          raw := n ++ "==" ++ v, top_level := tl })
    ∧ dictGet (dictInsert m (pyOrName (dictGet meta "Name") n)
        { metadata := meta, reqName := n, reqVersion := v,
          raw := n ++ "==" ++ v, top_level := tl }) (pyOrName (dictGet meta "Name") n)
      = some { metadata := meta, reqName := n, reqVersion := v,
               raw := n ++ "==" ++ v, top_level := tl }
    ∧ (dictGet meta "Name" = none → pyOrName (dictGet meta "Name") n = n)
    ∧ (∀ s, dictGet meta "Name" = some s → s ≠ "" → pyOrName (dictGet meta "Name") n = s)
    ∧ (summarize (pyOrName (dictGet meta "Name") n)
        { metadata := meta, reqName := n, reqVersion := v,
          raw := n ++ "==" ++ v, top_level := tl }).«alias»
      = (if n ≠ pyOrName (dictGet meta "Name") n then n else "") := by
  refine ⟨add_pkg_data_stores m hp hm ht, dictGet_dictInsert_self _ _ _,
    fun h0 => by simp [pyOrName, h0], fun s hs hne => by simp [pyOrName, hs, hne], rfl⟩

/-- C8 witness: the `beta` world stores the record under the metadata name
`Beta` and formats the alias `beta`. -/
theorem C8_witness :
    add_pkg_data envBeta "sp" [] "beta" "3.1"
      = .ok [("Beta", { metadata := [("Name", "Beta"), ("Version", "3.1")],
                        reqName := "beta", reqVersion := "3.1",
                        raw := "beta==3.1", top_level := none })]
    ∧ (summarize "Beta" { metadata := [("Name", "Beta"), ("Version", "3.1")],
                          reqName := "beta", reqVersion := "3.1",
                          raw := "beta==3.1", top_level := none }).«alias» = "beta" := by
  have h := C8_canonical_key_overwrite_alias envBeta "sp" [] "beta" "3.1"
    "sp/beta-3.1.egg-info" [("Name", "Beta"), ("Version", "3.1")] none
    (by decide) (by decide) (by decide)
  exact ⟨h.1.trans (by decide), (h.2.2.2.2).trans (by decide)⟩

/-! ## C9 -/

/-- A world with a manifest requiring `a==1.0`, resolvable metadata declaring
Name `a` and Version `1.0`, and no top_level file. -/
def envAlpha : Env :=
  { pathExists := fun p =>
      p == "requirements.txt" || p == "sp/a-1.0.egg-info" ||
      p == "sp/a-1.0.egg-info/PKG-INFO"
  , lines := fun p =>
      if p == "requirements.txt" then ["a==1.0\n"]
      else if p == "sp/a-1.0.egg-info/PKG-INFO" then ["Name: a\n", "Version: 1.0\n"]
      else []
  , runCmd := fun _ => ("", "") }

/-- A world whose manifest exists but contains no `name==version` line. -/
def envStale : Env :=
  { pathExists := fun p => p == "requirements.txt"
  , lines := fun p => if p == "requirements.txt" then ["nothing here\n"] else []
  , runCmd := fun _ => ("", "") }

/-- The Mapper state left by running `map()` once in `envAlpha`. -/
def stAfterAlpha : MapperState :=
  { regs := "requirements.txt", fmt := "json", verbose := "v", site := "sp",
    pkgs_map := [("a", { metadata := [("Name", "a"), ("Version", "1.0")],
                         reqName := "a", reqVersion := "1.0",
                         raw := "a==1.0", top_level := none })] }

/-- C9 counterexample: after a first `map()` run stores the record for `a`, a
second `map()` call on the same state — against a manifest contributing no
requirement — still emits that record: `_pkgs_map` is never cleared, so the
second call does not start from an empty PackageMap. -/
theorem C9_counterexample_records_survive :
    Mapper_map envAlpha (Mapper_init "requirements.txt" "json" "sp")
      = .ok (stAfterAlpha,
             .jsonText [{ name := "a", version := "1.0", modules := none, «alias» := "" }])
    ∧ Mapper_map envStale stAfterAlpha
      = .ok (stAfterAlpha,
             .jsonText [{ name := "a", version := "1.0", modules := none, «alias» := "" }])
    ∧ (MapOutput.jsonText
        [{ name := "a", version := "1.0", modules := none, «alias» := "" }]).records
      ≠ [] := by
  exact ⟨by decide, by decide, by decide⟩

/-- C9 amended: the PackageMap persists on the Mapper instance across `map()`
invocations — a successful run starts its loop from the map left by the prior
run, every key present before is still present after (possibly overwritten),
and when the new manifest contributes no requirement the prior records are
returned verbatim in the new output. -/
theorem C9_amended_pkgs_map_persists (env : Env) (st st' : MapperState) (out : MapOutput)
    (h : Mapper_map env st = .ok (st', out)) :
    (∀ k, (dictGet st.pkgs_map k).isSome = true → (dictGet st'.pkgs_map k).isSome = true)
    ∧ (∀ ls, mapper_read env st.regs = .ok ls → pySplit ls "==" = .ok [] →
        st'.pkgs_map = st.pkgs_map
        ∧ out = Mapper_format st.fmt st.verbose st.pkgs_map) := by
  obtain ⟨ls, reqs, m', hr, hs, hp, hst, hout⟩ := Mapper_map_ok_inv h
  constructor
  · intro k hk
    rw [hst]
    exact processAll_ok_keys hp k hk
  · intro ls2 hr2 hse
    rw [hr] at hr2
    injection hr2 with hls
    subst hls
    have hs' : Mapper_split (.strList ls) "==" = .ok [] := hse
    have hreqs : reqs = [] := by
      have h2 := hs'.symm.trans hs
      injection h2 with h2
      exact h2.symm
    subst hreqs
    unfold processAll at hp
    injection hp with hp
    subst hp
    rw [hst, hout]
    exact ⟨rfl, rfl⟩

/-- C9 amended witness: the stale second run keeps the key `a` in the state. -/
theorem C9_amended_witness :
    (dictGet stAfterAlpha.pkgs_map "a").isSome = true
    ∧ (dictGet stAfterAlpha.pkgs_map "a").isSome = true := by
  have h := C9_amended_pkgs_map_persists envStale stAfterAlpha stAfterAlpha
    (.jsonText [{ name := "a", version := "1.0", modules := none, «alias» := "" }])
    (by decide)
  exact ⟨by decide, h.1 "a" (by decide)⟩

/-! ## Distinct keys of the parsed requirement mapping -/

lemma dictGet_none_forall {α : Type} {m : List (String × α)} {k : String}
    (h : dictGet m k = none) : ∀ p ∈ m, p.1 ≠ k := by
  induction m with
  | nil => intro p hp; simp at hp
  | cons q rest ih =>
    by_cases hq : q.1 = k
    · simp [dictGet, hq] at h
    · have h' : dictGet rest k = none := by simpa [dictGet, hq] using h
      intro p hp
      rcases List.mem_cons.mp hp with h1 | h1
      · rw [h1]; exact hq
      · exact ih h' p h1

lemma pairwiseKeys_dictInsert {α : Type} {m : List (String × α)}
    (h : m.Pairwise (fun a b => a.1 ≠ b.1)) (k : String) (v : α) :
    (dictInsert m k v).Pairwise (fun a b => a.1 ≠ b.1) := by
  unfold dictInsert
  by_cases hs : (dictGet m k).isSome = true
  · rw [if_pos hs]
    have keyF : ∀ p : String × α, ((if p.1 = k then (k, v) else p)).1 = p.1 := by
      intro p
      by_cases hp : p.1 = k <;> simp [hp]
    refine List.Pairwise.map _ ?_ h
    intro a b hab
    rw [keyF a, keyF b]
    exact hab
  · rw [if_neg hs]
    have h0 : dictGet m k = none := Option.not_isSome_iff_eq_none.mp hs
    refine List.pairwise_append.mpr ⟨h, List.pairwise_singleton _ _, ?_⟩
    intro a ha b hb
    rw [List.eq_of_mem_singleton hb]
    exact dictGet_none_forall h0 a ha

lemma pyDictOfPairs_pairwiseKeys :
    ∀ {reqs : List (List String)} {acc m : List (String × String)},
      acc.Pairwise (fun a b => a.1 ≠ b.1) → pyDictOfPairs reqs acc = .ok m →
      m.Pairwise (fun a b => a.1 ≠ b.1) := by
  intro reqs
  induction reqs with
  | nil =>
    intro acc m hacc h
    unfold pyDictOfPairs at h
    injection h with h
    subst h
    exact hacc
  | cons parts rest ih =>
    intro acc m hacc h
    unfold pyDictOfPairs at h
    match parts, h with
    | [], h => simp at h
    | [k], h => simp at h
    | [k, v], h => exact ih (pairwiseKeys_dictInsert hacc (pyStrip k) (pyStrip v)) h
    | k :: v :: w :: t, h => simp at h

lemma pySplit_pairwiseKeys {data : List String} {d : String} {m : List (String × String)}
    (h : pySplit data d = .ok m) : m.Pairwise (fun a b => a.1 ≠ b.1) := by
  unfold pySplit at h
  cases hq : pySplitReqs data d with
  | error e =>
    rw [hq] at h
    simp at h
  | ok reqs =>
    rw [hq] at h
    simp only [] at h
    exact pyDictOfPairs_pairwiseKeys List.Pairwise.nil h

/-! ## Completing the loop when one requirement fails to install -/

lemma processAll_skip {env : Env} {site n v : String} :
    ∀ {reqs : List (String × String)},
      (∀ p ∈ reqs, p.1 = n → p.2 = v) →
      (mapper_install env n v).2 ≠ "" →
      (∀ p ∈ reqs, (mapper_install env p.1 p.2).2 = "" →
        ∀ m : PkgMap, ∃ m', add_pkg_data env site m p.1 p.2 = .ok m') →
      ∀ m : PkgMap, (∀ r ∈ m, r.2.reqName ≠ n) →
      ∃ m', processAll env site reqs m = .ok m' ∧ ∀ r ∈ m', r.2.reqName ≠ n := by
  intro reqs
  induction reqs with
  | nil =>
    intro _ _ _ m hm
    exact ⟨m, rfl, hm⟩
  | cons p rest ih =>
    intro hkey herr hok m hm
    by_cases hinst : (mapper_install env p.1 p.2).2 = ""
    · obtain ⟨m1, hm1⟩ := hok p (List.mem_cons_self p rest) hinst m
      have hstep : processReq env site m p = .ok m1 := by
        rw [processReq_ok_enrich m hinst]
        exact hm1
      have hm1inv : ∀ r ∈ m1, r.2.reqName ≠ n := by
        intro r hr
        rcases add_pkg_data_ok_mem hm1 r hr with h1 | h1
        · exact hm r h1
        · rw [h1]
          intro hcon
          have hv := hkey p (List.mem_cons_self p rest) hcon
          rw [hcon, hv] at hinst
          exact herr hinst
      obtain ⟨m', hrest, hinv⟩ :=
        ih (fun q hq => hkey q (List.mem_cons_of_mem p hq)) herr
          (fun q hq => hok q (List.mem_cons_of_mem p hq)) m1 hm1inv
      refine ⟨m', ?_, hinv⟩
      unfold processAll
      rw [hstep]
      simpa using hrest
    · have hstep : processReq env site m p = .ok m := processReq_err m hinst
      obtain ⟨m', hrest, hinv⟩ :=
        ih (fun q hq => hkey q (List.mem_cons_of_mem p hq)) herr
          (fun q hq => hok q (List.mem_cons_of_mem p hq)) m hm
      refine ⟨m', ?_, hinv⟩
      unfold processAll
      rw [hstep]
      simpa using hrest

/-! ## C4 -/

/-- C4: a requirement whose install reports nonempty stderr is skipped — its
loop step returns the map unchanged and raises nothing — and, provided every
requirement with a clean install enriches without raising, the whole run
completes with an output whose PackageMap holds no record originating from the
failed requirement. -/
theorem C4_install_failure_is_skipped (env : Env) (regs fmt site : String)
    (ls : List String) (reqs : List (String × String)) (n v : String)
    (hread : mapper_read env regs = .ok ls)
    (hsplit : Mapper_split (.strList ls) "==" = .ok reqs)
    (hmem : (n, v) ∈ reqs)
    (herr : (mapper_install env n v).2 ≠ "")
    (henrich : ∀ p ∈ reqs, (mapper_install env p.1 p.2).2 = "" →
      ∀ m : PkgMap, ∃ m', add_pkg_data env site m p.1 p.2 = .ok m') :
    (∀ m : PkgMap, processReq env site m (n, v) = .ok m)
    ∧ ∃ st' out, Mapper_map env (Mapper_init regs fmt site) = .ok (st', out)
        ∧ (∀ r ∈ st'.pkgs_map, r.2.reqName ≠ n)
        ∧ out = Mapper_format fmt "v" st'.pkgs_map := by
  have hpw : reqs.Pairwise (fun a b => a.1 ≠ b.1) := pySplit_pairwiseKeys hsplit
  have hkey : ∀ p ∈ reqs, p.1 = n → p.2 = v := by
    intro p hp hpn
    by_cases hpe : p = (n, v)
    · rw [hpe]
    · exact absurd hpn (hpw.forall (fun _ _ h => Ne.symm h) hp hmem hpe)
  obtain ⟨m', hall, hinv⟩ :=
    processAll_skip hkey herr henrich [] (by intro r hr; simp at hr)
  refine ⟨fun m => processReq_err m herr, ?_⟩
  exact ⟨_, _, Mapper_map_ok hread hsplit hall, hinv, rfl⟩

/-- A world whose manifest requires `a==1.0` but where every subprocess call
reports stderr, so the install of `a` fails. -/
def envInstallFail : Env :=
  { pathExists := fun p => p == "requirements.txt"
  , lines := fun p => if p == "requirements.txt" then ["a==1.0\n"] else []
  , runCmd := fun _ => ("", "error: install failed") }

/-- C4 witness: with the failing installer the step keeps the map unchanged and
the full run completes with no record for `a`. -/
theorem C4_witness :
    processReq envInstallFail "sp" [] ("a", "1.0") = .ok []
    ∧ ∃ st' out, Mapper_map envInstallFail (Mapper_init "requirements.txt" "json" "sp")
          = .ok (st', out)
        ∧ (∀ r ∈ st'.pkgs_map, r.2.reqName ≠ "a")
        ∧ out = Mapper_format "json" "v" st'.pkgs_map := by
  have h := C4_install_failure_is_skipped envInstallFail "requirements.txt" "json" "sp"
    ["a==1.0\n"] [("a", "1.0")] "a" "1.0" (by decide) (by decide) (by decide) (by decide)
    (fun p hp hinst => by
      rw [List.eq_of_mem_singleton hp] at hinst
      exact absurd hinst (by decide))
  exact ⟨h.1 [], h.2⟩

/-! ## String lemmas for the splitting routine (C5)

The code strips a line before splitting it, while the spec splits the raw
line and strips the two parts.  For a delimiter containing no whitespace the
two agree; the lemmas below prove it. -/

lemma dropWhile_append_of_all {p : Char → Bool} :
    ∀ {w x : List Char}, (∀ c ∈ w, p c = true) →
      List.dropWhile p (w ++ x) = List.dropWhile p x := by
  intro w
  induction w with
  | nil => intro x _; rfl
  | cons c w' ih =>
    intro x h
    rw [List.cons_append, List.dropWhile_cons, if_pos (h c (List.mem_cons_self c w'))]
    exact ih (fun a ha => h a (List.mem_cons_of_mem c ha))

lemma stripList_ws_append {w x : List Char} (h : ∀ c ∈ w, pyWs c = true) :
    stripList (w ++ x) = stripList x := by
  unfold stripList
  rw [dropWhile_append_of_all h]

lemma stripList_append_ws {x w : List Char} (h : ∀ c ∈ w, pyWs c = true) :
    stripList (x ++ w) = stripList x := by
  unfold stripList
  rw [List.dropWhile_append]
  by_cases hx : (List.dropWhile pyWs x).isEmpty = true
  · rw [if_pos hx]
    rw [List.isEmpty_iff.mp hx]
    rw [List.dropWhile_eq_nil_iff.mpr h]
  · rw [if_neg hx]
    rw [List.reverse_append]
    rw [dropWhile_append_of_all (fun c hc => h c (List.mem_reverse.mp hc))]

lemma not_prefix_all_ws {dh : Char} {dt w : List Char} (hdh : pyWs dh = false)
    (hw : ∀ c ∈ w, pyWs c = true) : ¬ ((dh :: dt) <+: w) := by
  cases w with
  | nil =>
    intro h
    exact List.noConfusion (List.prefix_nil.mp h)
  | cons c w' =>
    intro h
    rcases List.cons_prefix_cons.mp h with ⟨he, _⟩
    rw [he] at hdh
    rw [hw c (List.mem_cons_self c w')] at hdh
    exact Bool.noConfusion hdh

lemma prefix_append_ws {d : List Char} (hd : ∀ c ∈ d, pyWs c = false) :
    ∀ {w x : List Char}, (∀ c ∈ w, pyWs c = true) → ((d <+: (x ++ w)) ↔ (d <+: x)) := by
  induction d with
  | nil =>
    intro w x _
    simp [List.nil_prefix]
  | cons dh dt ih =>
    intro w x hw
    cases x with
    | nil =>
      rw [List.nil_append]
      constructor
      · intro h
        exact absurd h (not_prefix_all_ws (hd dh (List.mem_cons_self dh dt)) hw)
      · intro h
        exact absurd (List.prefix_nil.mp h) List.noConfusion
    | cons c x' =>
      rw [List.cons_append]
      constructor
      · intro h
        rcases List.cons_prefix_cons.mp h with ⟨he, h2⟩
        exact List.cons_prefix_cons.mpr
          ⟨he, (ih (fun a ha => hd a (List.mem_cons_of_mem dh ha)) hw).mp h2⟩
      · intro h
        rcases List.cons_prefix_cons.mp h with ⟨he, h2⟩
        exact List.cons_prefix_cons.mpr
          ⟨he, (ih (fun a ha => hd a (List.mem_cons_of_mem dh ha)) hw).mpr h2⟩

lemma splitOnceCore_all_ws_none {d : List Char} (hne : d ≠ [])
    (hd : ∀ c ∈ d, pyWs c = false) :
    ∀ {w : List Char}, (∀ c ∈ w, pyWs c = true) → splitOnceCore d w = none := by
  intro w
  induction w with
  | nil => intro _; rfl
  | cons c w' ih =>
    intro hw
    have hpre : ¬ (d <+: (c :: w')) := by
      cases d with
      | nil => exact absurd rfl hne
      | cons dh dt => exact not_prefix_all_ws (hd dh (List.mem_cons_self dh dt)) hw
    rw [splitOnceCore, if_neg hpre, ih (fun a ha => hw a (List.mem_cons_of_mem c ha))]
    rfl

lemma splitOnceCore_append_left_ws {d : List Char} (hne : d ≠ [])
    (hd : ∀ c ∈ d, pyWs c = false) :
    ∀ {w r : List Char}, (∀ c ∈ w, pyWs c = true) →
      splitOnceCore d (w ++ r) = (splitOnceCore d r).map (fun p => (w ++ p.1, p.2)) := by
  intro w
  induction w with
  | nil =>
    intro r _
    rw [List.nil_append]
    cases splitOnceCore d r <;> simp
  | cons c w' ih =>
    intro r hw
    have hpre : ¬ (d <+: (c :: (w' ++ r))) := by
      cases d with
      | nil => exact absurd rfl hne
      | cons dh dt =>
        intro h
        rcases List.cons_prefix_cons.mp h with ⟨he, _⟩
        have h1 := hd dh (List.mem_cons_self dh dt)
        rw [he, hw c (List.mem_cons_self c w')] at h1
        exact Bool.noConfusion h1
    rw [List.cons_append, splitOnceCore, if_neg hpre,
      ih (fun a ha => hw a (List.mem_cons_of_mem c ha))]
    cases splitOnceCore d r <;> rfl

lemma splitOnceCore_append_right_ws {d : List Char} (hne : d ≠ [])
    (hd : ∀ c ∈ d, pyWs c = false) :
    ∀ {x w : List Char}, (∀ c ∈ w, pyWs c = true) →
      splitOnceCore d (x ++ w) = (splitOnceCore d x).map (fun p => (p.1, p.2 ++ w)) := by
  intro x
  induction x with
  | nil =>
    intro w hw
    rw [List.nil_append, splitOnceCore_all_ws_none hne hd hw]
    rfl
  | cons c x' ih =>
    intro w hw
    have hiff : (d <+: ((c :: x') ++ w)) ↔ (d <+: (c :: x')) := prefix_append_ws hd hw
    by_cases hp : d <+: (c :: x')
    · rw [List.cons_append, splitOnceCore, if_pos (by rw [← List.cons_append]; exact hiff.mpr hp)]
      rw [splitOnceCore, if_pos hp]
      rw [← List.cons_append, List.drop_append_of_le_length hp.length_le]
      rfl
    · rw [List.cons_append, splitOnceCore,
        if_neg (by rw [← List.cons_append]; exact fun h => hp (hiff.mp h))]
      rw [splitOnceCore, if_neg hp]
      rw [ih hw]
      cases splitOnceCore d x' <;> rfl

/-- Every character list splits as leading whitespace, its stripped core, and
trailing whitespace. -/
lemma strip_decomp (l : List Char) :
    ∃ w1 w2, (∀ c ∈ w1, pyWs c = true) ∧ (∀ c ∈ w2, pyWs c = true)
      ∧ l = w1 ++ (stripList l ++ w2) := by
  refine ⟨l.takeWhile pyWs, ((l.dropWhile pyWs).reverse.takeWhile pyWs).reverse,
    fun c hc => List.mem_takeWhile_imp hc,
    fun c hc => List.mem_takeWhile_imp (List.mem_reverse.mp hc), ?_⟩
  conv_lhs => rw [← List.takeWhile_append_dropWhile pyWs l]
  congr 1
  conv_lhs => rw [← List.reverse_reverse (List.dropWhile pyWs l),
    ← List.takeWhile_append_dropWhile pyWs (List.dropWhile pyWs l).reverse,
    List.reverse_append]
  rfl

/-- For a nonempty whitespace-free delimiter, splitting the stripped line and
splitting the raw line then stripping the parts agree. -/
lemma splitOnce_strip_line {d : List Char} (hne : d ≠ []) (hd : ∀ c ∈ d, pyWs c = false)
    {l : List Char} (hsome : (splitOnceCore d l).isSome = true) :
    ∃ k v K V, splitOnceCore d (stripList l) = some (k, v)
      ∧ splitOnceCore d l = some (K, V)
      ∧ stripList K = stripList k ∧ stripList V = stripList v := by
  obtain ⟨w1, w2, hw1, hw2, hl⟩ := strip_decomp l
  have e1 : splitOnceCore d l
      = (splitOnceCore d (stripList l)).map (fun p => (w1 ++ p.1, p.2 ++ w2)) := by
    conv_lhs => rw [hl]
    rw [splitOnceCore_append_left_ws hne hd hw1, splitOnceCore_append_right_ws hne hd hw2]
    cases splitOnceCore d (stripList l) <;> rfl
  have hsome2 : (splitOnceCore d (stripList l)).isSome = true := by
    rw [e1] at hsome
    cases h : splitOnceCore d (stripList l) with
    | none => rw [h] at hsome; exact Bool.noConfusion hsome
    | some p => rfl
  obtain ⟨p, hp⟩ := Option.isSome_iff_exists.mp hsome2
  refine ⟨p.1, p.2, w1 ++ p.1, p.2 ++ w2, by rw [hp], ?_, ?_, ?_⟩
  · rw [e1, hp]
    simp
  · exact stripList_ws_append hw1
  · exact stripList_append_ws hw2

/-- The parts Python computes for one kept line of `_split` (proof helper). -/
def pyLineParts (r d : String) : List String :=
  match splitOnceCore d.data (stripList r.data) with
  | some p => [⟨p.1⟩, ⟨p.2⟩]
  | none => [pyStrip r]

lemma pySplitLine_eq (r d : String) (hie : d.data.isEmpty = false) :
    pySplitLine (pyStrip r) d = .ok (pyLineParts r d) := by
  unfold pySplitLine pyLineParts
  rw [hie]
  simp only [Bool.false_eq_true, if_false]
  rw [show (pyStrip r).data = stripList r.data from rfl]
  cases splitOnceCore d.data (stripList r.data) <;> rfl

lemma pySplitReqs_eq {d : String} (hie : d.data.isEmpty = false) :
    ∀ data : List String,
      pySplitReqs data d = .ok (data.filterMap (fun r =>
        if pyFind r d then some (pyLineParts r d) else none)) := by
  intro data
  induction data with
  | nil => rfl
  | cons r rest ih =>
    rw [pySplitReqs]
    by_cases hf : pyFind r d = true
    · rw [if_pos hf, pySplitLine_eq r d hie, ih, List.filterMap_cons]
      simp [hf]
    · rw [if_neg hf, ih, List.filterMap_cons]
      simp [hf]

lemma pyDictOfPairs_eq_claim {d : String} (hne : d.data ≠ [])
    (hd : ∀ c ∈ d.data, pyWs c = false) :
    ∀ (data : List String) (acc : List (String × String)),
      pyDictOfPairs (data.filterMap (fun r =>
        if pyFind r d then some (pyLineParts r d) else none)) acc
      = .ok ((claimSplitPairs data d).foldl (fun m p => dictInsert m p.1 p.2) acc) := by
  intro data
  induction data with
  | nil => intro acc; rfl
  | cons r rest ih =>
    intro acc
    by_cases hf : pyFind r d = true
    · have hsome : (splitOnceCore d.data r.data).isSome = true := by
        cases h : splitOnceCore d.data r.data with
        | some p => rfl
        | none =>
          exfalso
          unfold pyFind at hf
          rw [h] at hf
          simp at hf
          exact hne hf
      obtain ⟨k, v, K, V, hstrip, horig, hK, hV⟩ := splitOnce_strip_line hne hd hsome
      have hparts : pyLineParts r d = [(⟨k⟩ : String), ⟨v⟩] := by
        unfold pyLineParts
        rw [hstrip]
      have hclaim : claimSplitPairs (r :: rest) d
          = (pyStrip ⟨K⟩, pyStrip ⟨V⟩) :: claimSplitPairs rest d := by
        unfold claimSplitPairs
        rw [List.filterMap_cons, horig]
        rfl
      rw [hclaim, List.foldl_cons]
      rw [show pyStrip (⟨K⟩ : String) = pyStrip ⟨k⟩ from congrArg String.mk hK,
        show pyStrip (⟨V⟩ : String) = pyStrip ⟨v⟩ from congrArg String.mk hV]
      rw [List.filterMap_cons, if_pos hf, hparts]
      exact ih (dictInsert acc (pyStrip ⟨k⟩) (pyStrip ⟨v⟩))
    · have hnone : splitOnceCore d.data r.data = none := by
        cases h : splitOnceCore d.data r.data with
        | none => rfl
        | some p =>
          exfalso
          apply hf
          unfold pyFind
          rw [h]
          simp
      have hclaim : claimSplitPairs (r :: rest) d = claimSplitPairs rest d := by
        unfold claimSplitPairs
        rw [List.filterMap_cons, hnone]
        rfl
      rw [hclaim, List.filterMap_cons, if_neg hf]
      exact ih acc

/-! ## C5 -/

/-- C5: for a nonempty delimiter containing no whitespace (both delimiters the
program uses, `"=="` and `":"`, qualify), `_split` returns exactly the mapping
the spec describes: each line containing the delimiter is split once on the
first occurrence with both parts stripped, other lines are dropped, and
duplicate keys collapse to the last occurrence. -/
theorem C5_split_matches_spec (data : List String) (d : String)
    (hne : d ≠ "") (hd : ∀ c ∈ d.data, pyWs c = false) :
    Mapper_split (.strList data) d = .ok (claimSplit data d) := by
  have hdd : d.data ≠ [] := fun h => hne (String.ext (by rw [h]))
  have hie : d.data.isEmpty = false := by
    cases h : d.data with
    | nil => exact absurd h hdd
    | cons a l => rfl
  show pySplit data d = .ok (claimSplit data d)
  unfold pySplit
  rw [pySplitReqs_eq hie data]
  exact pyDictOfPairs_eq_claim hdd hd data []

/-- C5 witness: the two examples of the claim, via the theorem. -/
theorem C5_witness :
    Mapper_split (.strList ["name==1.0.0", "not-a-kv-line"]) "==" = .ok [("name", "1.0.0")]
    ∧ Mapper_split (.strList ["Name: foo"]) ":" = .ok [("Name", "foo")] := by
  constructor
  · exact (C5_split_matches_spec ["name==1.0.0", "not-a-kv-line"] "=="
      (by decide) (by decide)).trans (by decide)
  · exact (C5_split_matches_spec ["Name: foo"] ":"
      (by decide) (by decide)).trans (by decide)
